import Mathlib

/-!
Verification of the ezbids finalize-and-convert pipeline driver
(src/handler/bids.sh) against its natural-language specification.

The shell script is embedded shallowly:

* a file system is a finite association list from absolute path strings to
  file contents, newest entry first (a write prepends, a read takes the
  first match, rm -rf filters);
* the external tools the script shells out to (the JSON parser behind jq,
  convert.js, bids-validator) are oracle parameters collected in a World
  structure; the jq program text .datasetDescription.Name is embedded
  faithfully (missing object keys and null index to null, indexing any
  other non-object value is an error, the -r flag prints strings raw and
  null as the four characters null);
* set -e is embedded by aborting the run with the failing command's exit
  status as soon as a must-succeed command returns nonzero, while the
  literal || true on the validator line discards the validator's status;
* the validator's stderr is deliberately an observable of the World that
  the run never writes into the file system, because the script redirects
  only stdout into validator.log;
* every externally visible action is recorded in an event trace so that
  ordering claims (delete before convert, fan-out before convert) are
  statements about the trace.
-/

set_option autoImplicit false
set_option maxRecDepth 4000

/-- A file system: association list from absolute paths to file contents,
newest entry first. -/
abbrev FS := List (String × String)

/-- Read a file: first entry whose path matches. -/
def readFile (fs : FS) (p : String) : Option String :=
  (fs.find? (fun e => e.1 == p)).map (fun e => e.2)

/-- Path p is the directory dir itself or lies strictly below it. -/
def underEq (dir p : String) : Bool :=
  (p == dir) || (dir ++ "/").data.isPrefixOf p.data

/-- Embedding of rm -rf dir: drop every entry at or below dir.  Total, hence
deleting a directory that does not exist is a no-op, never an error. -/
def deleteTree (dir : String) (fs : FS) : FS :=
  fs.filter (fun e => !underEq dir e.1)

/-- JSON values, as parsed by jq.  Numbers are modelled as integers; no
claim depends on fractional numerals. -/
inductive Json where
  | null
  | bool (b : Bool)
  | num (n : Int)
  | str (s : String)
  | arr (elems : List Json)
  | obj (fields : List (String × Json))

/-- Minimal JSON string quoting used by jq when printing non-string values
compactly (escapes backslash, quote and newline). -/
def jsonQuoteChar (c : Char) : String :=
  if c = '\\' then "\\\\"
  else if c = '\"' then "\\\""
  else if c = '\n' then "\\n"
  else String.singleton c

/-- Quote a JSON string literal. -/
def jsonQuote (s : String) : String :=
  "\"" ++ String.join (s.data.map jsonQuoteChar) ++ "\""

mutual

/-- Compact JSON text of a value, as jq prints values. -/
def jqEncode : Json → String
  | Json.null => "null"
  | Json.bool true => "true"
  | Json.bool false => "false"
  | Json.num n => toString n
  | Json.str s => jsonQuote s
  | Json.arr xs => "[" ++ jqEncodeArr xs ++ "]"
  | Json.obj fs => "\x7b" ++ jqEncodeObj fs ++ "\x7d"

/-- Comma-separated encodings of array elements. -/
def jqEncodeArr : List Json → String
  | [] => ""
  | [x] => jqEncode x
  | x :: y :: xs => jqEncode x ++ "," ++ jqEncodeArr (y :: xs)

/-- Comma-separated encodings of object members. -/
def jqEncodeObj : List (String × Json) → String
  | [] => ""
  | [e] => jsonQuote e.1 ++ ":" ++ jqEncode e.2
  | e :: f :: fs => jsonQuote e.1 ++ ":" ++ jqEncode e.2 ++ "," ++ jqEncodeObj (f :: fs)

end

/-- jq field indexing .k: on an object it yields the member value or null
when the key is absent, on null it yields null, and on every other value it
is a runtime error. -/
def jqIndex : Json → String → Except Unit Json
  | Json.obj fields, k =>
      Except.ok ((( fields.find? (fun e => e.1 == k)).map (fun e => e.2)).getD Json.null)
  | Json.null, _ => Except.ok Json.null
  | _, _ => Except.error ()

/-- Output of jq -r for a single value: strings print raw, everything else
prints as its compact JSON text (so null prints as null). -/
def jqRawPrint : Json → String
  | Json.str s => s
  | v => jqEncode v

/-- The jq program .datasetDescription.Name under -r. -/
def jqQueryName (j : Json) : Except Unit String :=
  match jqIndex j "datasetDescription" with
  | Except.error _ => Except.error ()
  | Except.ok d =>
    match jqIndex d "Name" with
    | Except.error _ => Except.error ()
    | Except.ok v => Except.ok (jqRawPrint v)

/-- The external tools the script shells out to, as deterministic oracles.
convExit and convWrites describe convert.js as a function of the raw
contents of the session root (exit status, files written).  valExit is the
validator's exit status: the script discards it (|| true), so run never
reads it.  valErr is the validator's stderr: the script redirects only
stdout, so run never writes valErr into the file system. -/
structure World where
  parse : String → Option Json
  convExit : FS → Nat
  convWrites : FS → FS
  valExit : String → FS → Nat
  valOut : String → FS → String
  valErr : String → FS → String

/-- Externally visible actions of one run, in execution order. -/
inductive Event where
  | jqRead (p : String)
  | rmrf (d : String)
  | convertCall (r : String)
  | treeCall (d : String)
  | validatorCall (d : String)
  | writeEv (p : String)
  | defaceCall (r : String)
deriving DecidableEq

/-- Exit status of the usage check (exit 1 in the script). -/
def usageExit : Nat := 1

/-- The rootDir variable of the script: root/bids/datasetName. -/
def rootDir (root name : String) : String :=
  root ++ "/bids/" ++ name

/-- The raw contents of the session root: files below root other than the
bids output tree and the two audit logs the pipeline itself writes. -/
def rawPred (root p : String) : Bool :=
  (root ++ "/").data.isPrefixOf p.data
    && !underEq (root ++ "/bids") p
    && !(p == root ++ "/tree.log")
    && !(p == root ++ "/validator.log")

/-- Restrict a file system to the raw contents of the session root. -/
def rawFiles (root : String) (fs : FS) : FS :=
  fs.filter (fun e => rawPred root e.1)

/-- The datasetName line of the script: read root/finalized.json, parse it,
run the jq query.  A missing or unparseable file is a jq error (exit 2), a
jq runtime error exits 5; under set -e either aborts the run. -/
def datasetName (w : World) (root : String) (fs : FS) : Except Nat String :=
  match readFile fs (root ++ "/finalized.json") with
  | none => Except.error 2
  | some content =>
    match w.parse content with
    | none => Except.error 2
    | some j =>
      match jqQueryName j with
      | Except.error _ => Except.error 5
      | Except.ok s => Except.ok s

/-- The converter step: rm -rf rootDir, then convert.js root.  Returns the
converter's exit status and the file system after the converter's writes. -/
def convertStage (w : World) (root name : String) (fs : FS) : Nat × FS :=
  let fs1 := deleteTree (rootDir root name) fs
  let raw := rawFiles root fs1
  (w.convExit raw, w.convWrites raw ++ fs1)

/-- Rendering of the tree command on a directory: a deterministic function
of the entries at or below it. -/
def treeRender (dir : String) (fs : FS) : String :=
  dir ++ "\n" ++ String.intercalate "\n" ((fs.filter (fun e => underEq dir e.1)).map (fun e => e.1))

/-- The snapshot step: tree rootDir > root/tree.log. -/
def treeStage (root name : String) (fs : FS) : FS :=
  (root ++ "/tree.log", treeRender (rootDir root name) fs) :: fs

/-- The validation step: bids-validator rootDir > root/validator.log.
Only the validator's stdout is written; its exit status and stderr are
discarded. -/
def validateStage (w : World) (root name : String) (fs : FS) : FS :=
  (root ++ "/validator.log", w.valOut (rootDir root name) fs) :: fs

/-- Result of one pipeline run: exit status, final file system, trace. -/
structure RunOutcome where
  exitCode : Nat
  fs : FS
  trace : List Event
deriving DecidableEq

/-- Shallow embedding of bids.sh: argument check, dataset-name query,
rm -rf, convert.js (fatal on nonzero exit under set -e), tree snapshot,
validator with || true. -/
def run (w : World) (arg : Option String) (fs : FS) : RunOutcome :=
  match arg with
  | none => ⟨usageExit, fs, []⟩
  | some root =>
    if root = "" then ⟨usageExit, fs, []⟩
    else
      match datasetName w root fs with
      | Except.error c => ⟨c, fs, [Event.jqRead (root ++ "/finalized.json")]⟩
      | Except.ok name =>
        let res := convertStage w root name fs
        let tr := [Event.jqRead (root ++ "/finalized.json"),
                   Event.rmrf (rootDir root name),
                   Event.convertCall root]
        if res.1 ≠ 0 then
          ⟨res.1, res.2, tr⟩
        else
          let fs3 := treeStage root name res.2
          let fs4 := validateStage w root name fs3
          ⟨0, fs4,
           tr ++ [Event.treeCall (rootDir root name),
                  Event.writeEv (root ++ "/tree.log"),
                  Event.validatorCall (rootDir root name),
                  Event.writeEv (root ++ "/validator.log")]⟩

/-- Modelled from the spec: the manifest-driven variant B of the pipeline
(its defacing fan-out is absent from the handler script, which only keeps
it as commented-out remnants).  A bounded worker pool over the manifest is
embedded as the partition of the record list into successive waves of at
most max k 1 records; workers of one wave run concurrently, waves run in
order.  Structural fuel (the list length) drives the recursion. -/
def chunksOfAux : Nat → Nat → List String → List (List String)
  | 0, _, _ => []
  | Nat.succ _, _, [] => []
  | Nat.succ n, k, x :: xs =>
      (x :: xs).take (max k 1) :: chunksOfAux n k ((x :: xs).drop (max k 1))

/-- Modelled from the spec: the wave partition of a deface manifest for a
worker bound k. -/
def chunksOf (k : Nat) (records : List String) : List (List String) :=
  chunksOfAux records.length k records

/-- Modelled from the spec: the lines the fan-out appends to the sentinel
log deface.out — one line per defacing invocation, whatever the
invocation's exit status, so a failing invocation never aborts the batch. -/
def sentinelLines (k : Nat) (defacer : String → Nat × String) (records : List String) : List String :=
  ((chunksOf k records).map (fun wave => wave.map (fun r => (defacer r).2))).flatten

/-- Modelled from the spec: the trace of the fan-out stage, one defaceCall
event per manifest record, wave by wave. -/
def fanoutTrace (k : Nat) (records : List String) : List Event :=
  ((chunksOf k records).map (fun wave => wave.map Event.defaceCall)).flatten

/-- Modelled from the spec: the variant-B stage sequence around the
fan-out — the whole fan-out completes, then the converter is invoked.
Returns the sentinel lines and the trace. -/
def runManifestStage (k : Nat) (defacer : String → Nat × String)
    (records : List String) (root : String) : List String × List Event :=
  (sentinelLines k defacer records,
   fanoutTrace k records ++ [Event.convertCall root])

/-- Two strings with the same character data are equal. -/
theorem strExt {a b : String} (h : a.data = b.data) : a = b := by
  cases a; cases b; simp_all

/-- Character data of an appended string. -/
theorem strDataAppend (a b : String) : (a ++ b).data = a.data ++ b.data := rfl

/-- Appending on the left is cancellative for strings. -/
theorem strAppendLeftCancel {a b c : String} (h : a ++ b = a ++ c) : b = c := by
  have hd : a.data ++ b.data = a.data ++ c.data := by
    have := congrArg String.data h
    simpa [strDataAppend] using this
  exact strExt (List.append_cancel_left hd)

/-- underEq unfolded to a propositional characterisation. -/
theorem underEq_iff (dir p : String) :
    underEq dir p = true ↔ p = dir ∨ (dir ++ "/").data <+: p.data := by
  simp [underEq, List.isPrefixOf_iff_prefix]

/-- underEq is invariant under appending a common prefix. -/
theorem underEq_append (r a b : String) :
    underEq (r ++ a) (r ++ b) = underEq a b := by
  have hassoc : ((r ++ a) ++ "/").data = r.data ++ (a ++ "/").data := by
    simp [strDataAppend, List.append_assoc]
  have hb : (r ++ b).data = r.data ++ b.data := strDataAppend r b
  cases hcase : underEq a b
  · have h1 : ¬ (b = a ∨ (a ++ "/").data <+: b.data) := by
      intro hor
      have : underEq a b = true := (underEq_iff a b).2 hor
      simp [hcase] at this
    apply (Bool.eq_false_iff).2
    intro htrue
    rcases (underEq_iff (r ++ a) (r ++ b)).1 htrue with heq | hpre
    · exact h1 (Or.inl (strAppendLeftCancel heq))
    · rw [hassoc, hb] at hpre
      exact h1 (Or.inr ((List.prefix_append_right_inj r.data).1 hpre))
  · rcases (underEq_iff a b).1 hcase with heq | hpre
    · exact (underEq_iff _ _).2 (Or.inl (by rw [heq]))
    · refine (underEq_iff _ _).2 (Or.inr ?_)
      rw [hassoc, hb]
      exact (List.prefix_append_right_inj r.data).2 hpre

/-- Whatever lies at or below a subdirectory d/s lies at or below d. -/
theorem under_extend (d s p : String)
    (h : underEq ((d ++ "/") ++ s) p = true) : underEq d p = true := by
  have hds : ((d ++ "/") ++ s).data = (d ++ "/").data ++ s.data := strDataAppend _ _
  rcases (underEq_iff _ _).1 h with heq | hpre
  · refine (underEq_iff _ _).2 (Or.inr ?_)
    rw [heq, hds]
    exact List.prefix_append _ _
  · refine (underEq_iff _ _).2 (Or.inr ?_)
    have h1 : (d ++ "/").data <+: (((d ++ "/") ++ s) ++ "/").data := by
      have h2 : (((d ++ "/") ++ s) ++ "/").data
          = (d ++ "/").data ++ (s.data ++ ("/" : String).data) := by
        rw [strDataAppend ((d ++ "/") ++ s) "/", hds, List.append_assoc]
      rw [h2]
      exact List.prefix_append _ _
    exact h1.trans hpre

/-- The script's rootDir, refactored around the bids directory. -/
theorem rootDir_eq (root name : String) :
    rootDir root name = ((root ++ "/bids") ++ "/") ++ name := by
  unfold rootDir
  rw [String.append_assoc root "/bids" "/"]
  rfl

/-- Reading from a one-entry extension of a file system. -/
theorem readFile_cons (e : String × String) (fs : FS) (p : String) :
    readFile (e :: fs) p = if e.1 = p then some e.2 else readFile fs p := by
  by_cases h : e.1 = p
  · simp [readFile, List.find?_cons_of_pos, h]
  · rw [if_neg h]
    unfold readFile
    rw [List.find?_cons_of_neg]
    simp [h]

/-- Reading a key that survives a key-based filter reads the original. -/
theorem readFile_filter (pred : String → Bool) (fs : FS) (p : String)
    (hp : pred p = true) :
    readFile (fs.filter (fun e => pred e.1)) p = readFile fs p := by
  induction fs with
  | nil => rfl
  | cons e fs ih =>
    by_cases hme : e.1 = p
    · have hpt : pred e.1 = true := by rw [hme]; exact hp
      simp [List.filter_cons, hpt, hp, readFile_cons, hme, ih]
    · cases hpe : pred e.1
      · simp [List.filter_cons, hpe, readFile_cons, hme, ih]
      · simp [List.filter_cons, hpe, readFile_cons, hme, ih]

/-- After rm -rf dir, nothing at or below dir is readable. -/
theorem readFile_deleteTree (dir : String) (fs : FS) (p : String)
    (h : underEq dir p = true) :
    readFile (deleteTree dir fs) p = none := by
  induction fs with
  | nil => rfl
  | cons e fs ih =>
    unfold deleteTree at ih ⊢
    cases hpe : underEq dir e.1
    · have hme : e.1 ≠ p := by
        intro hcontra
        rw [hcontra, h] at hpe
        cases hpe
      simp [hpe, readFile_cons, hme, ih]
    · simp [hpe, ih]

/-- rm -rf is idempotent. -/
theorem deleteTree_idem (dir : String) (fs : FS) :
    deleteTree dir (deleteTree dir fs) = deleteTree dir fs := by
  unfold deleteTree
  rw [List.filter_filter]
  apply List.filter_congr
  intro e _
  cases h : underEq dir e.1 <;> simp [h]

/-- After rm -rf dir, the restriction to dir is empty. -/
theorem filter_under_deleteTree (dir : String) (fs : FS) :
    (deleteTree dir fs).filter (fun e => underEq dir e.1) = [] := by
  unfold deleteTree
  rw [List.filter_filter]
  have : ∀ e ∈ fs, (underEq dir e.1 && !underEq dir e.1) = (fun _ => false) e := by
    intro e _
    cases h : underEq dir e.1 <;> simp [h]
  rw [List.filter_congr this, List.filter_false]

/-- rm -rf of the target directory does not touch the raw contents of the
session root. -/
theorem rawFiles_deleteTree (root name : String) (fs : FS) :
    rawFiles root (deleteTree (rootDir root name) fs) = rawFiles root fs := by
  unfold rawFiles deleteTree
  rw [List.filter_filter]
  apply List.filter_congr
  intro e _
  cases hraw : rawPred root e.1
  · simp
  · have hnb : underEq (root ++ "/bids") e.1 = false := by
      unfold rawPred at hraw
      cases h : underEq (root ++ "/bids") e.1
      · rfl
      · rw [h] at hraw
        simp at hraw
    have hnd : underEq (rootDir root name) e.1 = false := by
      cases h : underEq (rootDir root name) e.1
      · rfl
      · rw [rootDir_eq] at h
        rw [under_extend (root ++ "/bids") name e.1 h] at hnb
        cases hnb
    simp [hnd]

/-- Paths of the shape root ++ x with x outside the bids subtree are not at
or below the target directory. -/
theorem notUnder_rootDir (root name x : String)
    (hx : underEq "/bids" x = false) :
    underEq (rootDir root name) (root ++ x) = false := by
  cases h : underEq (rootDir root name) (root ++ x)
  · rfl
  · rw [rootDir_eq] at h
    have h2 := under_extend (root ++ "/bids") name (root ++ x) h
    rw [underEq_append root "/bids" x, hx] at h2
    cases h2

/-- The metadata descriptor belongs to the raw contents of the root. -/
theorem rawPred_finalized (root : String) :
    rawPred root (root ++ "/finalized.json") = true := by
  unfold rawPred
  have h1 : (root ++ "/").data.isPrefixOf (root ++ "/finalized.json").data = true := by
    apply (List.isPrefixOf_iff_prefix).2
    have h2 : (root ++ "/finalized.json").data
        = (root ++ "/").data ++ ("finalized.json" : String).data := by
      rw [strDataAppend, strDataAppend]
      have h3 : ("/finalized.json" : String).data
          = ("/" : String).data ++ ("finalized.json" : String).data := rfl
      rw [h3, List.append_assoc]
    rw [h2]
    exact List.prefix_append _ _
  have h2 : underEq (root ++ "/bids") (root ++ "/finalized.json") = false := by
    rw [underEq_append]
    decide
  have h3 : (root ++ "/finalized.json" == root ++ "/tree.log") = false := by
    apply beq_eq_false_iff_ne.2
    intro hcontra
    have := strAppendLeftCancel hcontra
    simp at this
  have h4 : (root ++ "/finalized.json" == root ++ "/validator.log") = false := by
    apply beq_eq_false_iff_ne.2
    intro hcontra
    have := strAppendLeftCancel hcontra
    simp at this
  rw [h1, h2, h3, h4]
  rfl

/-- The dataset-name query never fails with exit status zero. -/
theorem datasetName_error_ne_zero (w : World) (root : String) (fs : FS) (c : Nat)
    (h : datasetName w root fs = Except.error c) : c ≠ 0 := by
  unfold datasetName at h
  split at h
  · simp at h
    omega
  · split at h
    · simp at h
      omega
    · split at h
      · simp at h
        omega
      · simp at h

/-- The dataset-name query depends on the file system only through the
descriptor file. -/
theorem datasetName_congr (w : World) (root : String) (fs1 fs2 : FS)
    (h : readFile fs1 (root ++ "/finalized.json") = readFile fs2 (root ++ "/finalized.json")) :
    datasetName w root fs1 = datasetName w root fs2 := by
  unfold datasetName
  rw [h]

/-- The converter's exit status, unfolded. -/
theorem convertStage_fst (w : World) (root name : String) (fs : FS) :
    (convertStage w root name fs).1
      = w.convExit (rawFiles root (deleteTree (rootDir root name) fs)) := rfl

/-- The file system after the converter step, unfolded. -/
theorem convertStage_snd (w : World) (root name : String) (fs : FS) :
    (convertStage w root name fs).2
      = w.convWrites (rawFiles root (deleteTree (rootDir root name) fs))
          ++ deleteTree (rootDir root name) fs := rfl

/-- Run with a missing argument. -/
theorem run_usage (w : World) (fs : FS) : run w none fs = ⟨usageExit, fs, []⟩ := rfl

/-- Run with an empty argument. -/
theorem run_emptyArg (w : World) (fs : FS) : run w (some "") fs = ⟨usageExit, fs, []⟩ := rfl

/-- Run when the dataset-name query fails: set -e aborts with the query's
exit status before any destructive step. -/
theorem run_jqFail (w : World) (root : String) (fs : FS) (c : Nat)
    (hroot : root ≠ "") (hjq : datasetName w root fs = Except.error c) :
    run w (some root) fs = ⟨c, fs, [Event.jqRead (root ++ "/finalized.json")]⟩ := by
  simp only [run]
  rw [if_neg hroot, hjq]

/-- Run when the converter exits nonzero: set -e aborts with the
converter's status; neither tree nor the validator is reached. -/
theorem run_convFail (w : World) (root name : String) (fs : FS)
    (hroot : root ≠ "") (hjq : datasetName w root fs = Except.ok name)
    (hc : (convertStage w root name fs).1 ≠ 0) :
    run w (some root) fs =
      ⟨(convertStage w root name fs).1, (convertStage w root name fs).2,
       [Event.jqRead (root ++ "/finalized.json"),
        Event.rmrf (rootDir root name),
        Event.convertCall root]⟩ := by
  simp only [run]
  rw [if_neg hroot, hjq]
  simp [hc]

/-- Run when every must-succeed step succeeds. -/
theorem run_ok (w : World) (root name : String) (fs : FS)
    (hroot : root ≠ "") (hjq : datasetName w root fs = Except.ok name)
    (hc : (convertStage w root name fs).1 = 0) :
    run w (some root) fs =
      ⟨0, validateStage w root name (treeStage root name (convertStage w root name fs).2),
       [Event.jqRead (root ++ "/finalized.json"),
        Event.rmrf (rootDir root name),
        Event.convertCall root,
        Event.treeCall (rootDir root name),
        Event.writeEv (root ++ "/tree.log"),
        Event.validatorCall (rootDir root name),
        Event.writeEv (root ++ "/validator.log")]⟩ := by
  simp only [run]
  rw [if_neg hroot, hjq]
  simp [hc]

/-- A Boolean substring test on character lists: needle occurs in hay. -/
def containsSub (hay needle : List Char) : Bool :=
  match hay with
  | [] => needle.isEmpty
  | _ :: t => needle.isPrefixOf hay || containsSub t needle

/-- A Boolean substring test: needle occurs inside hay. -/
def containsStr (hay needle : String) : Bool :=
  containsSub hay.data needle.data

/-- Concrete world builder for witnesses and counterexamples: the
descriptor text DESC parses to the given JSON value, the converter and
validator behave as the remaining constants say. -/
def mkWorld (pj : Json) (ce : Nat) (cw : FS) (ve : Nat) (vo ver : String) : World where
  parse := fun s => if s == "DESC" then some pj else none
  convExit := fun _ => ce
  convWrites := fun _ => cw
  valExit := fun _ _ => ve
  valOut := fun _ _ => vo
  valErr := fun _ _ => ver

/-- Descriptor JSON with datasetDescription.Name = ds. -/
def jsonDS : Json := Json.obj [("datasetDescription", Json.obj [("Name", Json.str "ds")])]

/-- Valid descriptor JSON with no datasetDescription member at all. -/
def jsonNoField : Json := Json.obj [("other", Json.num 1)]

/-- Valid descriptor JSON whose datasetDescription is a number, so the
query path indexes a non-object, non-null value. -/
def jsonBadMid : Json := Json.obj [("datasetDescription", Json.num 5)]

/-- A session root holding only a well-formed descriptor. -/
def fs0 : FS := [("/r/finalized.json", "DESC")]

/-- A session root holding a descriptor plus a stale file from a previous
run inside the target bids directory. -/
def fsStale : FS := [("/r/finalized.json", "DESC"), ("/r/bids/ds/old_file.txt", "stale")]

/-- World for C1: converter exits 1 and writes nothing. -/
def w1 : World := mkWorld jsonDS 1 [] 0 "" ""

/-- World for C2: converter succeeds, validator exits 1 with empty stdout. -/
def w2 : World := mkWorld jsonDS 0 [("/r/bids/ds/x", "im")] 1 "" "boom"

/-- World for C3/C5/C7: everything succeeds, converter writes one file. -/
def w3 : World := mkWorld jsonDS 0 [("/r/bids/ds/x", "im")] 0 "ok" ""

/-- World for C4/C10: descriptor is valid JSON without the queried field. -/
def w4 : World := mkWorld jsonNoField 0 [] 0 "" ""

/-- World for C8: validator writes out to stdout and eee to stderr. -/
def w8 : World := mkWorld jsonDS 0 [] 0 "out" "eee"

/-- World for C10's counterexample: datasetDescription is a number. -/
def w10 : World := mkWorld jsonBadMid 0 [] 0 "" ""

/-- C1 counterexample: a run whose converter exits nonzero returns a
nonzero exit status, but tree.log is NOT produced at the session root even
though the target directory path is perfectly accessible — set -e aborts
the script before the snapshot step, contradicting the claim as stated. -/
theorem C1_cex :
    (run w1 (some "/r") fs0).exitCode ≠ 0
    ∧ readFile (run w1 (some "/r") fs0).fs "/r/tree.log" = none := by
  constructor
  · decide
  · rfl

/-- C1 (amended): whenever the converter step is reached and the converter
exits nonzero, run returns that nonzero status, and because set -e aborts
the script at once, the tree invocation never happens and the run does not
write tree.log. -/
theorem C1_amended (w : World) (root name : String) (fs : FS)
    (hroot : root ≠ "") (hjq : datasetName w root fs = Except.ok name)
    (hconv : (convertStage w root name fs).1 ≠ 0) :
    (run w (some root) fs).exitCode = (convertStage w root name fs).1
    ∧ (run w (some root) fs).exitCode ≠ 0
    ∧ Event.treeCall (rootDir root name) ∉ (run w (some root) fs).trace
    ∧ Event.writeEv (root ++ "/tree.log") ∉ (run w (some root) fs).trace := by
  rw [run_convFail w root name fs hroot hjq hconv]
  refine ⟨rfl, hconv, ?_, ?_⟩
  · intro hmem
    simp at hmem
  · intro hmem
    simp at hmem

/-- C1 witness: the amended statement at a concrete failing converter. -/
theorem C1_amended_w :
    (convertStage w1 "/r" "ds" fs0).1 ≠ 0
    ∧ ((run w1 (some "/r") fs0).exitCode = (convertStage w1 "/r" "ds" fs0).1
       ∧ (run w1 (some "/r") fs0).exitCode ≠ 0
       ∧ Event.treeCall (rootDir "/r" "ds") ∉ (run w1 (some "/r") fs0).trace
       ∧ Event.writeEv ("/r" ++ "/tree.log") ∉ (run w1 (some "/r") fs0).trace) :=
  ⟨by decide, C1_amended w1 "/r" "ds" fs0 (by decide) (by rfl) (by decide)⟩

/-- C2 counterexample: the validator exits nonzero with empty stdout; the
run still exits 0, but validator.log is empty, so a non-empty
validator.log is not guaranteed. -/
theorem C2_cex :
    w2.valExit (rootDir "/r" "ds") (treeStage "/r" "ds" (convertStage w2 "/r" "ds" fs0).2) = 1
    ∧ (run w2 (some "/r") fs0).exitCode = 0
    ∧ readFile (run w2 (some "/r") fs0).fs "/r/validator.log" = some "" :=
  ⟨rfl, rfl, rfl⟩

/-- C2 (amended): when every step before validation succeeds, a nonzero
validator exit never fails the pipeline — run exits 0 and validator.log is
produced at the session root, holding exactly the validator's stdout
(possibly empty). -/
theorem C2_amended (w : World) (root name : String) (fs : FS)
    (hroot : root ≠ "") (hjq : datasetName w root fs = Except.ok name)
    (hconv : (convertStage w root name fs).1 = 0) :
    (run w (some root) fs).exitCode = 0
    ∧ readFile (run w (some root) fs).fs (root ++ "/validator.log")
        = some (w.valOut (rootDir root name) (treeStage root name (convertStage w root name fs).2)) := by
  rw [run_ok w root name fs hroot hjq hconv]
  refine ⟨rfl, ?_⟩
  unfold validateStage
  rw [readFile_cons]
  simp

/-- C2 witness: the amended statement at a concrete nonzero-exit
validator. -/
theorem C2_amended_w :
    (convertStage w2 "/r" "ds" fs0).1 = 0
    ∧ ((run w2 (some "/r") fs0).exitCode = 0
       ∧ readFile (run w2 (some "/r") fs0).fs ("/r" ++ "/validator.log")
           = some (w2.valOut (rootDir "/r" "ds") (treeStage "/r" "ds" (convertStage w2 "/r" "ds" fs0).2))) :=
  ⟨by decide, C2_amended w2 "/r" "ds" fs0 (by decide) (by rfl) (by decide)⟩

/-- C3: given a readable descriptor, the target directory is deleted
recursively before the converter is invoked (the rmrf event precedes the
convertCall event in the trace), the deletion is idempotent and total (a
missing directory is not an error; the run always proceeds to the
converter), nothing at or below the target survives the delete step, and
any file at or below the target in the final state was written by the
converter, so no pre-run file survives the run. -/
theorem C3_ok (w : World) (root name : String) (fs : FS)
    (hroot : root ≠ "") (hjq : datasetName w root fs = Except.ok name) :
    (∀ p, underEq (rootDir root name) p = true →
        readFile (deleteTree (rootDir root name) fs) p = none)
    ∧ deleteTree (rootDir root name) (deleteTree (rootDir root name) fs)
        = deleteTree (rootDir root name) fs
    ∧ (∃ rest, (run w (some root) fs).trace
        = Event.jqRead (root ++ "/finalized.json")
          :: Event.rmrf (rootDir root name)
          :: Event.convertCall root :: rest)
    ∧ (∀ e, e ∈ (run w (some root) fs).fs → underEq (rootDir root name) e.1 = true →
        e ∈ w.convWrites (rawFiles root (deleteTree (rootDir root name) fs))) := by
  refine ⟨fun p hp => readFile_deleteTree _ fs p hp, deleteTree_idem _ fs, ?_, ?_⟩
  · by_cases hc : (convertStage w root name fs).1 = 0
    · rw [run_ok w root name fs hroot hjq hc]
      exact ⟨_, rfl⟩
    · rw [run_convFail w root name fs hroot hjq hc]
      exact ⟨[], rfl⟩
  · intro e hmem hunder
    have hdel : e ∈ deleteTree (rootDir root name) fs → False := by
      intro hin
      have := (List.mem_filter.1 hin).2
      rw [hunder] at this
      simp at this
    have hconvmem : e ∈ (convertStage w root name fs).2 →
        e ∈ w.convWrites (rawFiles root (deleteTree (rootDir root name) fs)) := by
      intro hin
      rw [convertStage_snd] at hin
      rcases List.mem_append.1 hin with h | h
      · exact h
      · exact absurd h (fun hh => hdel hh)
    by_cases hc : (convertStage w root name fs).1 = 0
    · rw [run_ok w root name fs hroot hjq hc] at hmem
      unfold validateStage treeStage at hmem
      rcases List.mem_cons.1 hmem with h | hmem2
      · rw [congrArg Prod.fst h] at hunder
        rw [notUnder_rootDir root name "/validator.log" (by decide)] at hunder
        cases hunder
      · rcases List.mem_cons.1 hmem2 with h | h
        · rw [congrArg Prod.fst h] at hunder
          rw [notUnder_rootDir root name "/tree.log" (by decide)] at hunder
          cases hunder
        · exact hconvmem h
    · rw [run_convFail w root name fs hroot hjq hc] at hmem
      exact hconvmem hmem

/-- C3 witness: a run over a root whose bids directory holds a stale file
from a previous run. -/
theorem C3_ok_w :
    datasetName w3 "/r" fsStale = Except.ok "ds"
    ∧ ((∀ p, underEq (rootDir "/r" "ds") p = true →
          readFile (deleteTree (rootDir "/r" "ds") fsStale) p = none)
       ∧ deleteTree (rootDir "/r" "ds") (deleteTree (rootDir "/r" "ds") fsStale)
           = deleteTree (rootDir "/r" "ds") fsStale
       ∧ (∃ rest, (run w3 (some "/r") fsStale).trace
           = Event.jqRead ("/r" ++ "/finalized.json")
             :: Event.rmrf (rootDir "/r" "ds")
             :: Event.convertCall "/r" :: rest)
       ∧ (∀ e, e ∈ (run w3 (some "/r") fsStale).fs → underEq (rootDir "/r" "ds") e.1 = true →
           e ∈ w3.convWrites (rawFiles "/r" (deleteTree (rootDir "/r" "ds") fsStale)))) :=
  ⟨by rfl, C3_ok w3 "/r" "ds" fsStale (by decide) (by rfl)⟩

/-- C4 counterexample: a descriptor that is valid JSON but has no
datasetDescription.Name field is NOT fatal — the run goes on to delete
root/bids/null and to invoke the converter, contradicting the claim that
such a run aborts before any destructive step. -/
theorem C4_cex :
    w4.parse "DESC" = some jsonNoField
    ∧ Event.rmrf "/r/bids/null" ∈ (run w4 (some "/r") fs0).trace
    ∧ Event.convertCall "/r" ∈ (run w4 (some "/r") fs0).trace := by
  refine ⟨rfl, ?_, ?_⟩ <;> decide

/-- C4 (amended): when the descriptor is missing or cannot be parsed (or
the jq query itself errors), the run is fatal with a nonzero status and
aborts before any destructive step: the file system is unchanged and the
trace holds only the metadata read — no rmrf, no converter call.  A parsed
descriptor that merely lacks the field is not fatal; jq prints null and
the run proceeds (see C10). -/
theorem C4_amended (w : World) (root : String) (fs : FS) (c : Nat)
    (hroot : root ≠ "") (hjq : datasetName w root fs = Except.error c) :
    (run w (some root) fs).exitCode = c ∧ c ≠ 0
    ∧ (run w (some root) fs).fs = fs
    ∧ (run w (some root) fs).trace = [Event.jqRead (root ++ "/finalized.json")] := by
  rw [run_jqFail w root fs c hroot hjq]
  exact ⟨rfl, datasetName_error_ne_zero w root fs c hjq, rfl, rfl⟩

/-- C4 witness: the amended statement at a root with no descriptor file at
all. -/
theorem C4_amended_w :
    datasetName w1 "/r" [] = Except.error 2
    ∧ ((run w1 (some "/r") []).exitCode = 2 ∧ (2 : Nat) ≠ 0
       ∧ (run w1 (some "/r") []).fs = []
       ∧ (run w1 (some "/r") []).trace = [Event.jqRead ("/r" ++ "/finalized.json")]) :=
  ⟨by rfl, C4_amended w1 "/r" [] 2 (by decide) (by rfl)⟩

/-- C5: with a descriptor yielding name N, the one directory the pipeline
deletes is root/bids/N (which is exactly what the rootDir definition
computes), every tree and validator invocation receives that same
directory, and on converter success both invocations happen. -/
theorem C5_ok (w : World) (root name : String) (fs : FS)
    (hroot : root ≠ "") (hjq : datasetName w root fs = Except.ok name) :
    rootDir root name = root ++ "/bids/" ++ name
    ∧ Event.rmrf (rootDir root name) ∈ (run w (some root) fs).trace
    ∧ (∀ d, Event.rmrf d ∈ (run w (some root) fs).trace → d = rootDir root name)
    ∧ (∀ d, Event.treeCall d ∈ (run w (some root) fs).trace → d = rootDir root name)
    ∧ (∀ d, Event.validatorCall d ∈ (run w (some root) fs).trace → d = rootDir root name)
    ∧ ((convertStage w root name fs).1 = 0 →
        Event.treeCall (rootDir root name) ∈ (run w (some root) fs).trace
        ∧ Event.validatorCall (rootDir root name) ∈ (run w (some root) fs).trace) := by
  by_cases hc : (convertStage w root name fs).1 = 0
  · rw [run_ok w root name fs hroot hjq hc]
    refine ⟨rfl, by simp, ?_, ?_, ?_, fun _ => ⟨by simp, by simp⟩⟩
    · intro d hd
      simp at hd
      exact hd
    · intro d hd
      simp at hd
      exact hd
    · intro d hd
      simp at hd
      exact hd
  · rw [run_convFail w root name fs hroot hjq hc]
    refine ⟨rfl, by simp, ?_, ?_, ?_, fun h => absurd h hc⟩
    · intro d hd
      simp at hd
      exact hd
    · intro d hd
      simp at hd
    · intro d hd
      simp at hd

/-- C5 witness: the statement at a concrete successful run. -/
theorem C5_ok_w :
    datasetName w3 "/r" fs0 = Except.ok "ds"
    ∧ (rootDir "/r" "ds" = "/r" ++ "/bids/" ++ "ds"
       ∧ Event.rmrf (rootDir "/r" "ds") ∈ (run w3 (some "/r") fs0).trace
       ∧ (∀ d, Event.rmrf d ∈ (run w3 (some "/r") fs0).trace → d = rootDir "/r" "ds")
       ∧ (∀ d, Event.treeCall d ∈ (run w3 (some "/r") fs0).trace → d = rootDir "/r" "ds")
       ∧ (∀ d, Event.validatorCall d ∈ (run w3 (some "/r") fs0).trace → d = rootDir "/r" "ds")
       ∧ ((convertStage w3 "/r" "ds" fs0).1 = 0 →
           Event.treeCall (rootDir "/r" "ds") ∈ (run w3 (some "/r") fs0).trace
           ∧ Event.validatorCall (rootDir "/r" "ds") ∈ (run w3 (some "/r") fs0).trace)) :=
  ⟨by rfl, C5_ok w3 "/r" "ds" fs0 (by decide) (by rfl)⟩

/-- C6: a missing or empty root-directory argument makes the script exit
with the usage status 1 before touching anything: the file system is
returned unchanged and the trace is empty. -/
theorem C6_ok (w : World) (fs : FS) (arg : Option String)
    (h : arg = none ∨ arg = some "") :
    run w arg fs = ⟨usageExit, fs, []⟩ ∧ usageExit ≠ 0 := by
  cases h with
  | inl h =>
    subst h
    exact ⟨run_usage w fs, by decide⟩
  | inr h =>
    subst h
    exact ⟨run_emptyArg w fs, by decide⟩

/-- C6 witness: the statement at a concrete argument-free invocation. -/
theorem C6_ok_w :
    ((none : Option String) = none ∨ (none : Option String) = some "")
    ∧ (run w1 none fs0 = ⟨usageExit, fs0, []⟩ ∧ usageExit ≠ 0) :=
  ⟨Or.inl rfl, C6_ok w1 fs0 none (Or.inl rfl)⟩

/-- Appending files to a file system whose target subtree was just wiped:
the restriction to the target subtree is exactly the appended part's. -/
theorem filter_append_deleteTree (dir : String) (xs ys : FS) :
    (xs ++ deleteTree dir ys).filter (fun e => underEq dir e.1)
      = xs.filter (fun e => underEq dir e.1) := by
  rw [List.filter_append, filter_under_deleteTree, List.append_nil]

/-- The tree snapshot of the target directory does not depend on what was
below the target before the wipe. -/
theorem treeRender_stable (dir : String) (xs ys zs : FS) :
    treeRender dir (xs ++ deleteTree dir ys) = treeRender dir (xs ++ deleteTree dir zs) := by
  unfold treeRender
  rw [filter_append_deleteTree, filter_append_deleteTree]

/-- The two audit-log paths of one session root differ. -/
theorem valLog_ne_treeLog (root : String) :
    (root ++ "/validator.log") ≠ (root ++ "/tree.log") := by
  intro h
  have h2 := strAppendLeftCancel h
  exact absurd h2 (by decide)

/-- Reading a raw file is unaffected by restricting to the raw contents. -/
theorem readFile_rawFiles (root : String) (fs : FS) (p : String)
    (hp : rawPred root p = true) :
    readFile (rawFiles root fs) p = readFile fs p := by
  unfold rawFiles
  exact readFile_filter (rawPred root) fs p hp

/-- C7: with a readable descriptor and a succeeding converter, running the
pipeline a second time on the file system the first run left behind — the
converter being by construction a deterministic function of the root's raw
contents, and those raw contents being unchanged by the first run —
produces byte-identical tree.log contents, and tree.log is present after
the first run. -/
theorem C7_idem (w : World) (root name : String) (fs : FS)
    (hroot : root ≠ "")
    (hjq : datasetName w root fs = Except.ok name)
    (hconv : w.convExit (rawFiles root fs) = 0)
    (hraw : rawFiles root (run w (some root) fs).fs = rawFiles root fs) :
    readFile (run w (some root) ((run w (some root) fs).fs)).fs (root ++ "/tree.log")
      = readFile (run w (some root) fs).fs (root ++ "/tree.log")
    ∧ (∃ s, readFile (run w (some root) fs).fs (root ++ "/tree.log") = some s) := by
  have hc1 : (convertStage w root name fs).1 = 0 := by
    rw [convertStage_fst, rawFiles_deleteTree]
    exact hconv
  have hrun1 : run w (some root) fs
      = ⟨0, validateStage w root name (treeStage root name (convertStage w root name fs).2),
         [Event.jqRead (root ++ "/finalized.json"),
          Event.rmrf (rootDir root name),
          Event.convertCall root,
          Event.treeCall (rootDir root name),
          Event.writeEv (root ++ "/tree.log"),
          Event.validatorCall (rootDir root name),
          Event.writeEv (root ++ "/validator.log")]⟩ :=
    run_ok w root name fs hroot hjq hc1
  set F1 : FS := (run w (some root) fs).fs with hF1
  have hF1eq : F1 = validateStage w root name (treeStage root name (convertStage w root name fs).2) := by
    rw [hF1, hrun1]
  have hfjson : readFile F1 (root ++ "/finalized.json") = readFile fs (root ++ "/finalized.json") := by
    have ha : readFile (rawFiles root F1) (root ++ "/finalized.json")
        = readFile F1 (root ++ "/finalized.json") :=
      readFile_rawFiles root F1 _ (rawPred_finalized root)
    have hb : readFile (rawFiles root fs) (root ++ "/finalized.json")
        = readFile fs (root ++ "/finalized.json") :=
      readFile_rawFiles root fs _ (rawPred_finalized root)
    rw [← ha, hraw, hb]
  have hjq2 : datasetName w root F1 = Except.ok name := by
    rw [datasetName_congr w root F1 fs hfjson]
    exact hjq
  have hc2 : (convertStage w root name F1).1 = 0 := by
    rw [convertStage_fst, rawFiles_deleteTree, hraw]
    exact hconv
  have hrun2 := run_ok w root name F1 hroot hjq2 hc2
  have hcw : w.convWrites (rawFiles root (deleteTree (rootDir root name) F1))
      = w.convWrites (rawFiles root (deleteTree (rootDir root name) fs)) := by
    rw [rawFiles_deleteTree, rawFiles_deleteTree, hraw]
  have htree : treeRender (rootDir root name) (convertStage w root name F1).2
      = treeRender (rootDir root name) (convertStage w root name fs).2 := by
    rw [convertStage_snd, convertStage_snd, hcw]
    exact treeRender_stable (rootDir root name)
      (w.convWrites (rawFiles root (deleteTree (rootDir root name) fs))) F1 fs
  have hread2 : readFile (run w (some root) F1).fs (root ++ "/tree.log")
      = some (treeRender (rootDir root name) (convertStage w root name F1).2) := by
    rw [hrun2]
    unfold validateStage treeStage
    rw [readFile_cons, if_neg (valLog_ne_treeLog root), readFile_cons, if_pos rfl]
  have hread1 : readFile F1 (root ++ "/tree.log")
      = some (treeRender (rootDir root name) (convertStage w root name fs).2) := by
    rw [hF1eq]
    unfold validateStage treeStage
    rw [readFile_cons, if_neg (valLog_ne_treeLog root), readFile_cons, if_pos rfl]
  constructor
  · rw [hread2, hread1, htree]
  · exact ⟨_, hread1⟩

/-- C7 witness: two consecutive concrete runs. -/
theorem C7_idem_w :
    w3.convExit (rawFiles "/r" fs0) = 0
    ∧ rawFiles "/r" (run w3 (some "/r") fs0).fs = rawFiles "/r" fs0
    ∧ (readFile (run w3 (some "/r") ((run w3 (some "/r") fs0).fs)).fs ("/r" ++ "/tree.log")
         = readFile (run w3 (some "/r") fs0).fs ("/r" ++ "/tree.log")
       ∧ (∃ s, readFile (run w3 (some "/r") fs0).fs ("/r" ++ "/tree.log") = some s)) :=
  ⟨rfl, by decide, C7_idem w3 "/r" "ds" fs0 (by decide) (by rfl) rfl (by decide)⟩

/-- C8 counterexample: the validator writes out to stdout and eee to
stderr; validator.log holds only the stdout part and the stderr text does
not occur in it, so the log does not contain everything written to both
streams. -/
theorem C8_cex :
    w8.valErr (rootDir "/r" "ds") (treeStage "/r" "ds" (convertStage w8 "/r" "ds" fs0).2) = "eee"
    ∧ readFile (run w8 (some "/r") fs0).fs "/r/validator.log" = some "out"
    ∧ containsStr "out" "eee" = false := by
  refine ⟨rfl, rfl, ?_⟩
  decide

/-- C8 (amended): for every run reaching validation, validator.log holds
exactly the validator's stdout; the stderr stream is not captured into the
log (the script redirects only stdout). -/
theorem C8_amended (w : World) (root name : String) (fs : FS)
    (hroot : root ≠ "") (hjq : datasetName w root fs = Except.ok name)
    (hconv : (convertStage w root name fs).1 = 0) :
    readFile (run w (some root) fs).fs (root ++ "/validator.log")
      = some (w.valOut (rootDir root name) (treeStage root name (convertStage w root name fs).2)) := by
  rw [run_ok w root name fs hroot hjq hconv]
  unfold validateStage
  rw [readFile_cons, if_pos rfl]

/-- C8 witness: the amended statement at a concrete validator with output
on both streams. -/
theorem C8_amended_w :
    (convertStage w8 "/r" "ds" fs0).1 = 0
    ∧ readFile (run w8 (some "/r") fs0).fs ("/r" ++ "/validator.log")
        = some (w8.valOut (rootDir "/r" "ds") (treeStage "/r" "ds" (convertStage w8 "/r" "ds" fs0).2)) :=
  ⟨by decide, C8_amended w8 "/r" "ds" fs0 (by decide) (by rfl) (by decide)⟩

/-- Concatenating the waves gives back the manifest, in order. -/
theorem chunksOfAux_flatten (k : Nat) :
    ∀ (n : Nat) (xs : List String), xs.length ≤ n → (chunksOfAux n k xs).flatten = xs := by
  intro n
  induction n with
  | zero =>
    intro xs h
    cases xs with
    | nil => rfl
    | cons x t => simp at h
  | succ n ih =>
    intro xs h
    cases xs with
    | nil => rfl
    | cons x t =>
      unfold chunksOfAux
      rw [List.flatten_cons, ih]
      · exact List.take_append_drop _ _
      · rw [List.length_drop]
        have hm : 1 ≤ max k 1 := Nat.le_max_right k 1
        simp at h ⊢
        omega

/-- The wave partition of a manifest concatenates back to the manifest. -/
theorem chunksOf_flatten (k : Nat) (records : List String) :
    (chunksOf k records).flatten = records :=
  chunksOfAux_flatten k records.length records (Nat.le_refl _)

/-- Every wave respects the worker bound. -/
theorem chunksOfAux_wave_le (k : Nat) :
    ∀ (n : Nat) (xs : List String) (wave : List String),
      wave ∈ chunksOfAux n k xs → wave.length ≤ max k 1 := by
  intro n
  induction n with
  | zero =>
    intro xs wave h
    simp [chunksOfAux] at h
  | succ n ih =>
    intro xs wave h
    cases xs with
    | nil => simp [chunksOfAux] at h
    | cons x t =>
      unfold chunksOfAux at h
      rcases List.mem_cons.1 h with heq | hmem
      · rw [heq, List.length_take]
        exact Nat.min_le_left _ _
      · exact ih _ wave hmem

/-- C9: in the manifest-driven variant, for any defacer behaviour (failing
invocations included), any manifest and any positive worker bound K, the
fan-out attempts one defacing invocation per manifest record and appends
one sentinel line per invocation (so N records yield N lines even when
some invocations exit nonzero), no wave of concurrent workers exceeds K,
and the entire fan-out trace precedes the converter invocation. -/
theorem C9_fanout (k : Nat) (defacer : String → Nat × String)
    (records : List String) (root : String) (hk : 0 < k) :
    (sentinelLines k defacer records).length = records.length
    ∧ fanoutTrace k records = records.map Event.defaceCall
    ∧ (∀ wave, wave ∈ chunksOf k records → wave.length ≤ k)
    ∧ (runManifestStage k defacer records root).2
        = records.map Event.defaceCall ++ [Event.convertCall root] := by
  have hmax : max k 1 = k := Nat.max_eq_left hk
  have htrace : fanoutTrace k records = records.map Event.defaceCall := by
    unfold fanoutTrace
    rw [← List.map_flatten, chunksOf_flatten]
  refine ⟨?_, htrace, ?_, ?_⟩
  · unfold sentinelLines
    rw [← List.map_flatten, chunksOf_flatten, List.length_map]
  · intro wave hw
    have := chunksOfAux_wave_le k records.length records wave hw
    rw [hmax] at this
    exact this
  · unfold runManifestStage
    rw [htrace]

/-- C9 witness: a three-record manifest, worker bound two, middle
invocation failing. -/
theorem C9_fanout_w :
    0 < 2
    ∧ ((sentinelLines 2 (fun r => (if r == "b" then 1 else 0, "done-" ++ r)) ["a", "b", "c"]).length
         = (["a", "b", "c"] : List String).length
       ∧ fanoutTrace 2 ["a", "b", "c"] = (["a", "b", "c"] : List String).map Event.defaceCall
       ∧ (∀ wave, wave ∈ chunksOf 2 ["a", "b", "c"] → wave.length ≤ 2)
       ∧ (runManifestStage 2 (fun r => (if r == "b" then 1 else 0, "done-" ++ r)) ["a", "b", "c"] "/r").2
           = (["a", "b", "c"] : List String).map Event.defaceCall ++ [Event.convertCall "/r"]) :=
  ⟨by decide, C9_fanout 2 (fun r => (if r == "b" then 1 else 0, "done-" ++ r)) ["a", "b", "c"] "/r" (by decide)⟩

/-- C10 counterexample: a descriptor that is valid JSON and does not
contain the field datasetDescription.Name — its datasetDescription member
is the number five — makes jq error out (exit 5), so the run aborts after
the metadata read instead of proceeding with root/bids/null. -/
theorem C10_cex :
    w10.parse "DESC" = some jsonBadMid
    ∧ (run w10 (some "/r") fs0).exitCode = 5
    ∧ (run w10 (some "/r") fs0).trace = [Event.jqRead "/r/finalized.json"] :=
  ⟨rfl, rfl, rfl⟩

/-- C10 (amended): when the descriptor parses to a JSON object with no
datasetDescription key (so the query path traverses only objects and
null), the pipeline does not abort: the dataset-name query yields the
literal string null with success, and the run proceeds with
root/bids/null as the target directory — it is deleted, and on converter
success also passed to tree and the validator.  When the path instead hits
a non-object, non-null value, jq errors and the run aborts. -/
theorem C10_amended (w : World) (root : String) (fs : FS) (content : String)
    (fields : List (String × Json))
    (hroot : root ≠ "")
    (hread : readFile fs (root ++ "/finalized.json") = some content)
    (hparse : w.parse content = some (Json.obj fields))
    (hmiss : fields.find? (fun e => e.1 == "datasetDescription") = none) :
    datasetName w root fs = Except.ok "null"
    ∧ (∃ rest, (run w (some root) fs).trace
        = Event.jqRead (root ++ "/finalized.json")
          :: Event.rmrf (rootDir root "null")
          :: Event.convertCall root :: rest)
    ∧ ((convertStage w root "null" fs).1 = 0 →
        Event.treeCall (rootDir root "null") ∈ (run w (some root) fs).trace
        ∧ Event.validatorCall (rootDir root "null") ∈ (run w (some root) fs).trace) := by
  have hjq : datasetName w root fs = Except.ok "null" := by
    unfold datasetName
    simp only [hread]
    simp only [hparse]
    simp [jqQueryName, jqIndex, hmiss, jqRawPrint, jqEncode]
  refine ⟨hjq, ?_, ?_⟩
  · by_cases hc : (convertStage w root "null" fs).1 = 0
    · rw [run_ok w root "null" fs hroot hjq hc]
      exact ⟨_, rfl⟩
    · rw [run_convFail w root "null" fs hroot hjq hc]
      exact ⟨[], rfl⟩
  · intro hc
    rw [run_ok w root "null" fs hroot hjq hc]
    exact ⟨by simp, by simp⟩

/-- C10 witness: the amended statement at a concrete descriptor without
the datasetDescription key. -/
theorem C10_amended_w :
    w4.parse "DESC" = some (Json.obj [("other", Json.num 1)])
    ∧ (datasetName w4 "/r" fs0 = Except.ok "null"
       ∧ (∃ rest, (run w4 (some "/r") fs0).trace
           = Event.jqRead ("/r" ++ "/finalized.json")
             :: Event.rmrf (rootDir "/r" "null")
             :: Event.convertCall "/r" :: rest)
       ∧ ((convertStage w4 "/r" "null" fs0).1 = 0 →
           Event.treeCall (rootDir "/r" "null") ∈ (run w4 (some "/r") fs0).trace
           ∧ Event.validatorCall (rootDir "/r" "null") ∈ (run w4 (some "/r") fs0).trace)) :=
  ⟨rfl, C10_amended w4 "/r" fs0 "DESC" [("other", Json.num 1)] (by decide) (by rfl) (by rfl) (by rfl)⟩
